import Mathlib

/-!
Shallow embedding of the two source files of the repository
`defi-risk-scanner-py` and a verification of the frozen claims about them.

* `defi_risk_scanner.py` — the transaction normalizer (`normalize`, lines 42-56),
  the numeric helper `to_int` (lines 27-34), the reputation constants
  (lines 58-60) and the wallet risk scorer `score` (lines 62-115).
* `risk_scanner.py` — the rule table `RULES` (lines 10-14) and the source
  pattern scanner `analyze` (lines 16-23).

Python floats are modelled as exact rationals (every value the program
manipulates — integer timestamps, quartile interpolations with denominator 4,
thresholds with denominator 20, integer point totals — is exactly
representable in IEEE doubles, so the rational model agrees with the float
semantics on everything proved here).  Machine integers do not overflow in
CPython, so `ℤ`/`ℕ` are used directly.  Fallible Python code (expressions
that can raise) is modelled in `Except`.
-/

namespace RiskScan

/-- Model of a Python scalar as it appears in a loaded CSV/JSON record:
a string, an int, or a float (floats as exact rationals). -/
inductive PyVal where
  | vStr (s : String)
  | vInt (n : ℤ)
  | vFloat (q : ℚ)
deriving DecidableEq

/-- The exceptions the modelled fragments can raise:
`AttributeError` (calling `.lower()`/`.upper()` on a non-string) and
`ValueError` (`float()` applied to a non-numeric string). -/
inductive PyErr where
  | attributeError
  | valueError
deriving DecidableEq

/-- Python truthiness of the scalars above: empty string and zero are falsy. -/
def pyTruthy : PyVal → Bool
  | .vStr s => decide (s ≠ "")
  | .vInt n => decide (n ≠ 0)
  | .vFloat q => decide (q ≠ 0)

/-- Python `a or b` where `a` comes from `r.get(key)` (`none` models the key
being absent, i.e. `r.get` returning `None`, which is falsy). -/
def pyOr (a : Option PyVal) (b : PyVal) : PyVal :=
  match a with
  | none => b
  | some v => if pyTruthy v then v else b

/-- ASCII lower-casing; model of Python `str.lower()` on the ASCII data this
program handles. -/
def strLower (s : String) : String := ⟨s.data.map Char.toLower⟩

/-- ASCII upper-casing; model of Python `str.upper()`. -/
def strUpper (s : String) : String := ⟨s.data.map Char.toUpper⟩

/-- Does `needle` match the front of `hay`? (helper for substring search) -/
def leadEq : List Char → List Char → Bool
  | [], _ => true
  | _ :: _, [] => false
  | a :: as, b :: bs => a == b && leadEq as bs

/-- Model of the Python substring test `needle in hay`. -/
def strHas (needle : List Char) : List Char → Bool
  | [] => needle.isEmpty
  | c :: cs => leadEq needle (c :: cs) || strHas needle cs

/-- Numeric value of a digit string. -/
def digitsToNat (cs : List Char) : ℕ :=
  cs.foldl (fun a c => a * 10 + (c.toNat - 48)) 0

/-- Are all characters decimal digits? -/
def allDigits (cs : List Char) : Bool := cs.all Char.isDigit

/-- Model of Python `int(s)` on a string: an optional sign followed by at
least one digit; anything else raises (here: `none`). -/
def parseIntStr (s : String) : Option ℤ :=
  match s.data with
  | '-' :: rest => if rest ≠ [] ∧ allDigits rest then some (-(digitsToNat rest : ℤ)) else none
  | '+' :: rest => if rest ≠ [] ∧ allDigits rest then some ((digitsToNat rest : ℤ)) else none
  | cs => if cs ≠ [] ∧ allDigits cs then some ((digitsToNat cs : ℤ)) else none

/-- Unsigned part of a Python float literal: digits, optionally a point and
more digits, with at least one digit present overall. -/
def parseFloatCore (cs : List Char) : Option ℚ :=
  let ip := cs.takeWhile Char.isDigit
  let rest := cs.dropWhile Char.isDigit
  match rest with
  | [] => if ip ≠ [] then some ((digitsToNat ip : ℚ)) else none
  | '.' :: fp =>
    if allDigits fp ∧ (ip ≠ [] ∨ fp ≠ []) then
      some ((digitsToNat ip : ℚ) + (digitsToNat fp : ℚ) / (10 : ℚ) ^ fp.length)
    else none
  | _ => none

/-- Model of Python `float(s)` on a string: an optionally signed decimal
literal; a non-numeric string such as `"abc"` raises ValueError (`none`). -/
def parseFloatStr (s : String) : Option ℚ :=
  match s.data with
  | '-' :: rest => (parseFloatCore rest).map (fun q => -q)
  | '+' :: rest => parseFloatCore rest
  | cs => parseFloatCore cs

/-- Python `float(x)` applied to a raw field value: ints and floats coerce,
strings are parsed, and a non-numeric string raises `ValueError`. -/
def pyFloat : PyVal → Except PyErr ℚ
  | .vInt n => .ok ((n : ℚ))
  | .vFloat q => .ok q
  | .vStr s =>
    match parseFloatStr s with
    | some q => .ok q
    | none => .error .valueError

/-- Truncation toward zero: Python `int()` applied to a float. -/
def ratTrunc (q : ℚ) : ℤ := if 0 ≤ q then q.floor else -((-q).floor)

/-- Source `to_int` (defi_risk_scanner.py lines 27-34): try `int(x)`, then
`int(float(x))`, and fall back to the default `0`.  Total — it never raises. -/
def to_int (x : PyVal) : ℤ :=
  match x with
  | .vInt n => n
  | .vFloat q => ratTrunc q
  | .vStr s =>
    match parseIntStr s with
    | some n => n
    | none =>
      match parseFloatStr s with
      | some q => ratTrunc q
      | none => 0

/-- Python `.lower()` on a raw value: only strings have the attribute. -/
def pyLower : PyVal → Except PyErr String
  | .vStr s => .ok (strLower s)
  | _ => .error .attributeError

/-- Python `.upper()` on a raw value: only strings have the attribute. -/
def pyUpper : PyVal → Except PyErr String
  | .vStr s => .ok (strUpper s)
  | _ => .error .attributeError

/-- A raw record as `normalize` sees it: exactly the keys it reads with
`r.get(...)`, each possibly absent. -/
structure RawRecord where
  hash : Option PyVal
  txHash : Option PyVal
  «from» : Option PyVal
  src : Option PyVal
  «to» : Option PyVal
  dst : Option PyVal
  method : Option PyVal
  functionName : Option PyVal
  tokenSymbol : Option PyVal
  symbol : Option PyVal
  value : Option PyVal
  amount : Option PyVal
  timeStamp : Option PyVal
  timestamp : Option PyVal
  time : Option PyVal
deriving DecidableEq

/-- A raw record with every key absent. -/
def emptyRaw : RawRecord :=
  ⟨none, none, none, none, none, none, none, none, none, none, none, none, none, none, none⟩

/-- The canonical record shape `normalize` produces (the dict of lines 45-53).
The `hash` entry is stored without coercion, so it keeps the raw value. -/
structure TransactionRecord where
  hash : PyVal
  «from» : String
  «to» : String
  method : String
  token : String
  value : ℚ
  time : ℤ
deriving DecidableEq

/-- The dict construction in the body of `normalize` (lines 45-53), with the
fields evaluated in source order; the first coercion that raises aborts the
record.  `value` is `float(get("value") or get("amount") or 0) or 0.0` and
`time` is `to_int(get("timeStamp") or get("timestamp") or get("time") or 0)`. -/
def normalizeRecord (r : RawRecord) : Except PyErr TransactionRecord :=
  let hash := pyOr r.hash (pyOr r.txHash (.vStr ""))
  match pyLower (pyOr r.«from» (pyOr r.src (.vStr ""))) with
  | .error e => .error e
  | .ok fr =>
    match pyLower (pyOr r.«to» (pyOr r.dst (.vStr ""))) with
    | .error e => .error e
    | .ok toA =>
      match pyLower (pyOr r.method (pyOr r.functionName (.vStr ""))) with
      | .error e => .error e
      | .ok meth =>
        match pyUpper (pyOr r.tokenSymbol (pyOr r.symbol (.vStr ""))) with
        | .error e => .error e
        | .ok tok =>
          match pyFloat (pyOr r.value (pyOr r.amount (.vInt 0))) with
          | .error e => .error e
          | .ok v =>
            .ok ⟨hash, fr, toA, meth, tok,
                 if pyTruthy (.vFloat v) then v else 0,
                 to_int (pyOr r.timeStamp (pyOr r.timestamp (pyOr r.time (.vInt 0))))⟩

/-- Source `normalize` (lines 42-56): convert every row and stably sort the
output by `time` ascending (`out.sort(key=lambda r: r["time"])`; insertion
sort is stable, matching Python's sort).  The `addr` parameter is unused,
exactly as in the source. -/
def normalize (rows : List RawRecord) (addr : String) : Except PyErr (List TransactionRecord) :=
  match rows.mapM normalizeRecord with
  | .error e => .error e
  | .ok out => .ok (List.insertionSort (fun a b => a.time ≤ b.time) out)

/-- Line 58. -/
def SUS_METHODS : List String := ["permit", "increaseallowance", "setapprovalforall", "permit2"]

/-- Line 59 (the sample mixer set). -/
def MIXERS : List String := ["0x5ace...", "0x1111..."]

/-- Line 60. -/
def PHISHING_TOKENS : List String := ["FAKE", "SCAM"]

/-- The flag strings `score` appends, one constructor per f-string:
`noHistory` = "no history", `mixer n` = f"received from known mixer: n txs",
`approvals n` = f"sensitive approvals: n", `bursts n` = f"bot-like bursts: n",
`susTokens n` = f"received suspicious tokens: n", `wash a b` =
f"wash-like transfers between a and b", `coldWallet` =
"no recent activity (cold wallet)". -/
inductive Flag where
  | noHistory
  | mixer (n : ℕ)
  | approvals (n : ℕ)
  | bursts (n : ℕ)
  | susTokens (n : ℕ)
  | wash (a b : String)
  | coldWallet
deriving DecidableEq

/-- Heuristic 1 (lines 71-74): `len(from_mixers)`, the records received from
a known mixer by the target address. -/
def mixerCount (rows : List TransactionRecord) (addr : String) : ℕ :=
  (rows.filter (fun r => decide (r.«from» ∈ MIXERS ∧ r.«to» = addr))).length

/-- Points from heuristic 1: flat 35 when any mixer inflow exists. -/
def mixerPts (rows : List TransactionRecord) (addr : String) : ℚ :=
  if 0 < mixerCount rows addr then 35 else 0

/-- Flag from heuristic 1. -/
def mixerFlags (rows : List TransactionRecord) (addr : String) : List Flag :=
  if 0 < mixerCount rows addr then [.mixer (mixerCount rows addr)] else []

/-- Heuristic 2 (line 77): records sent by the target whose method contains a
sensitive substring. -/
def approvalsCount (rows : List TransactionRecord) (addr : String) : ℕ :=
  (rows.filter (fun r =>
    decide (r.«from» = addr) && SUS_METHODS.any (fun m => strHas m.data r.method.data))).length

/-- Points from heuristic 2: `min(25, approvals * 5)` when positive. -/
def approvalPts (rows : List TransactionRecord) (addr : String) : ℚ :=
  if 0 < approvalsCount rows addr then min 25 ((approvalsCount rows addr : ℚ) * 5) else 0

/-- Flag from heuristic 2. -/
def approvalFlags (rows : List TransactionRecord) (addr : String) : List Flag :=
  if 0 < approvalsCount rows addr then [.approvals (approvalsCount rows addr)] else []

/-- Line 83: successive time gaps of the (time-sorted) record sequence. -/
def gapsOf : List TransactionRecord → List ℤ
  | a :: b :: rest => (b.time - a.time) :: gapsOf (b :: rest)
  | _ => []

/-- Model of `statistics.quantiles(data, n=4)[0]` (line 85): Q1 by the
default "exclusive" method — sort the data, set `m = len + 1`,
`j, delta = divmod(m, 4)`, clamp `j` to `[1, len-1]`, and interpolate
`(data[j-1]*(4-delta) + data[j]*delta) / 4`.  CPython raises
`StatisticsError` when there are fewer than two data points. -/
def quantilesQ1 (data : List ℤ) : Except Unit ℚ :=
  let d := List.insertionSort (fun a b => a ≤ b) data
  let ld := d.length
  if ld < 2 then .error ()
  else
    let m := ld + 1
    let j0 := m / 4
    let delta := m % 4
    let j := if j0 < 1 then 1 else if ld - 1 < j0 then ld - 1 else j0
    .ok (((d.getD (j - 1) 0 : ℚ) * ((4 - delta : ℕ) : ℚ) + (d.getD j 0 : ℚ) * (delta : ℚ)) / 4)

/-- Line 86: the burst threshold `max(10, q1 / 5)`. -/
def burstThreshold (q1 : ℚ) : ℚ := max 10 (q1 / 5)

/-- Line 86: how many gaps fall at or under the threshold. -/
def burstCount (gaps : List ℤ) (q1 : ℚ) : ℕ :=
  (gaps.filter (fun g => decide ((g : ℚ) ≤ burstThreshold q1))).length

/-- Heuristic 3 (lines 83-89): its point/flag contribution, in `Except`
because `statistics.quantiles` raises on a single gap. -/
def burstRes (rows : List TransactionRecord) : Except Unit (ℚ × List Flag) :=
  if (gapsOf rows).isEmpty then .ok (0, [])
  else
    match quantilesQ1 (gapsOf rows) with
    | .error e => .error e
    | .ok q1 =>
      if 3 ≤ burstCount (gapsOf rows) q1 then .ok (10, [.bursts (burstCount (gapsOf rows) q1)])
      else .ok (0, [])

/-- Heuristic 4 (line 92): phishing-token receipts by the target. -/
def tokenCount (rows : List TransactionRecord) (addr : String) : ℕ :=
  (rows.filter (fun r => decide (r.token ∈ PHISHING_TOKENS ∧ r.«to» = addr))).length

/-- Points from heuristic 4. -/
def tokenPts (rows : List TransactionRecord) (addr : String) : ℚ :=
  if 0 < tokenCount rows addr then 10 else 0

/-- Flag from heuristic 4. -/
def tokenFlags (rows : List TransactionRecord) (addr : String) : List Flag :=
  if 0 < tokenCount rows addr then [.susTokens (tokenCount rows addr)] else []

/-- Line 98: `pair_counts[(a, b)]`, the number of records from `a` to `b`. -/
def pairCount (rows : List TransactionRecord) (a b : String) : ℕ :=
  (rows.filter (fun r => decide (r.«from» = a ∧ r.«to» = b))).length

/-- Distinct elements in order of first occurrence — the iteration order of a
Python `Counter`/dict built by insertion. -/
def firstOcc : List (String × String) → List (String × String)
  | [] => []
  | p :: rest => p :: ((firstOcc rest).filter (fun q => decide (q ≠ p)))

/-- The keys of `pair_counts` (line 98) in iteration order. -/
def pairKeys (rows : List TransactionRecord) : List (String × String) :=
  firstOcc (rows.map (fun r => (r.«from», r.«to»)))

/-- Heuristic 5 (lines 98-105): the first pair, in `Counter` iteration order,
that touches the target and has forward and reverse counts both ≥ 3; the
`break` makes it first-match-only. -/
def washFound (rows : List TransactionRecord) (addr : String) : Option (String × String) :=
  (pairKeys rows).find? (fun p =>
    decide ((p.1 = addr ∨ p.2 = addr) ∧ 3 ≤ pairCount rows p.1 p.2 ∧ 3 ≤ pairCount rows p.2 p.1))

/-- Points from heuristic 5. -/
def washPts (rows : List TransactionRecord) (addr : String) : ℚ :=
  match washFound rows addr with
  | some _ => 15
  | none => 0

/-- Flag from heuristic 5. -/
def washFlags (rows : List TransactionRecord) (addr : String) : List Flag :=
  match washFound rows addr with
  | some p => [.wash p.1 p.2]
  | none => []

/-- Line 108: `rows[-1]["time"]` (0 is never used: `score` guards nonempty). -/
def lastTime (rows : List TransactionRecord) : ℤ :=
  match rows.getLast? with
  | some r => r.time
  | none => 0

/-- Line 108: records within 30 days (2,592,000 s) of the latest record. -/
def recentRecords (rows : List TransactionRecord) : List TransactionRecord :=
  rows.filter (fun r => decide (lastTime rows - r.time < 30 * 24 * 3600))

/-- Line 109: the cold-wallet condition `not recent`. -/
def coldFires (rows : List TransactionRecord) : Bool :=
  (recentRecords rows).isEmpty

/-- Flag from heuristic 6. -/
def coldFlags (rows : List TransactionRecord) : List Flag :=
  if coldFires rows then [.coldWallet] else []

/-- Lines 70-111 of `score`: the accumulated points (with the cold-wallet
adjustment `max(0, points - 10)`) and the flags in evaluation order. -/
def scorePoints (rows : List TransactionRecord) (addr : String) : Except Unit (ℚ × List Flag) :=
  match burstRes rows with
  | .error e => .error e
  | .ok bres =>
    let base := mixerPts rows addr + approvalPts rows addr + bres.1
      + tokenPts rows addr + washPts rows addr
    let pts := if coldFires rows then max 0 (base - 10) else base
    .ok (pts, mixerFlags rows addr ++ approvalFlags rows addr ++ bres.2
      ++ tokenFlags rows addr ++ washFlags rows addr ++ coldFlags rows)

/-- Round-half-to-even on a rational: Python's `round` rule (exact on the
values arising here, where the argument is an integer). -/
def roundHalfEven (q : ℚ) : ℤ :=
  if q - (q.floor : ℚ) < 1 / 2 then q.floor
  else if 1 / 2 < q - (q.floor : ℚ) then q.floor + 1
  else if q.floor % 2 = 0 then q.floor else q.floor + 1

/-- Python `round(x, 2)`. -/
def round2 (q : ℚ) : ℚ := ((roundHalfEven (q * 100) : ℤ) : ℚ) / 100

/-- Source `score` (lines 62-115): lower-case the address, short-circuit the
empty history, run the heuristics, then `round(max(0.0, min(100.0, points)), 2)`. -/
def score (rows : List TransactionRecord) (addr0 : String) : Except Unit (ℚ × List Flag) :=
  let addr := strLower addr0
  if rows.isEmpty then .ok (10, [.noHistory])
  else
    match scorePoints rows addr with
    | .error e => .error e
    | .ok pf => .ok (round2 (max 0 (min 100 pf.1)), pf.2)

/-- Pattern characters for the rule regexes: a literal or the `.` wildcard
(which matches any character except a newline). -/
inductive PChar where
  | lit (c : Char)
  | dot
deriving DecidableEq

/-- Case-insensitive single-character match (re.IGNORECASE). -/
def pcharMatches : PChar → Char → Bool
  | .lit c, d => c.toLower == d.toLower
  | .dot, d => decide (d ≠ '\n')

/-- Does the pattern match a prefix of the text? -/
def matchesFront : List PChar → List Char → Bool
  | [], _ => true
  | _ :: _, [] => false
  | p :: ps, c :: cs => pcharMatches p c && matchesFront ps cs

/-- Model of `re.search(pattern, code, re.IGNORECASE)`: does the pattern
match starting at any position? -/
def reSearch (ps : List PChar) : List Char → Bool
  | [] => matchesFront ps []
  | c :: cs => matchesFront ps (c :: cs) || reSearch ps cs

/-- Compile a rule pattern: `.` is the any-character wildcard, everything
else a literal (the three rule patterns use no other regex syntax). -/
def patternOf (s : String) : List PChar :=
  s.data.map (fun c => if c = '.' then PChar.dot else PChar.lit c)

/-- A rule of `risk_scanner.py` (id, regex, weight, desc). -/
structure RiskRule where
  id : String
  regex : List PChar
  weight : ℕ
  desc : String

/-- The fixed rule list of `risk_scanner.py` (lines 10-14). -/
def RULES : List RiskRule :=
  [⟨"reentrancy", patternOf "call.value", 30, "Potential reentrancy (call.value)"⟩,
   ⟨"selfdestruct", patternOf "selfdestruct", 40, "Contract selfdestruct"⟩,
   ⟨"delegatecall", patternOf "delegatecall", 25, "Delegatecall detected"⟩]

/-- One iteration of the loop in `analyze`: on a match, add the weight and
append the description. -/
def analyzeStep (code : String) (acc : ℕ × List String) (rule : RiskRule) : ℕ × List String :=
  if reSearch rule.regex code.data then (acc.1 + rule.weight, acc.2 ++ [rule.desc]) else acc

/-- Source `analyze` (risk_scanner.py lines 16-23): fold the rule list in
declaration order, returning `(risk, reasons)`. -/
def analyze (code : String) : ℕ × List String :=
  RULES.foldl (analyzeStep code) (0, [])

/-- Specification-side alias selection: the first alias in the list that is
present and truthy, else the default.  Compared against the `or`-chains of
`normalize` for claim C4. -/
def firstTruthy : List (Option PyVal) → PyVal → PyVal
  | [], d => d
  | a :: rest, d =>
    match a with
    | some v => if pyTruthy v then v else firstTruthy rest d
    | none => firstTruthy rest d

/-- Specification-side recognizer of the wash flag, for counting how many
wash flags a result carries (claim C8). -/
def isWashFlag : Flag → Bool
  | .wash _ _ => true
  | _ => false

/-! Decidable equality for `Except`, used to evaluate the embedded fallible
functions on concrete inputs. -/

instance {ε α : Type} [DecidableEq ε] [DecidableEq α] : DecidableEq (Except ε α) :=
  fun a b =>
    match a, b with
    | .ok x, .ok y =>
      if h : x = y then .isTrue (by rw [h]) else .isFalse (by intro c; cases c; exact h rfl)
    | .error x, .error y =>
      if h : x = y then .isTrue (by rw [h]) else .isFalse (by intro c; cases c; exact h rfl)
    | .ok _, .error _ => .isFalse (by intro c; cases c)
    | .error _, .ok _ => .isFalse (by intro c; cases c)

/-! Concrete inputs used to evaluate the embedded code. -/

/-- A canonical record with empty strings and zero value at a given time. -/
def blankRec (t : ℤ) : TransactionRecord := ⟨.vStr "", "", "", "", "", 0, t⟩

/-- A dormant history: two old records and one much later record (the gap of
2,999,999 s and 3,000,000 s both exceed the 2,592,000 s window). -/
def dormantRows : List TransactionRecord := [blankRec 0, blankRec 1, blankRec 3000000]

/-- A two-record history (exactly one time gap). -/
def twoRows : List TransactionRecord := [blankRec 0, blankRec 100]

/-- A raw record with only the `value`/`amount` keys set. -/
def rawValueAmount (v a : Option PyVal) : RawRecord :=
  ⟨none, none, none, none, none, none, none, none, none, none, v, a, none, none, none⟩

/-- A raw record whose `value` is a non-numeric string. -/
def badValueRaw : RawRecord := rawValueAmount (some (.vStr "not a number")) none

/-- A raw record with `value` = 0 and `amount` = 5 (both aliases present,
the first falsy). -/
def zeroValueRaw : RawRecord := rawValueAmount (some (.vInt 0)) (some (.vInt 5))

/-- A raw record with `from` = "" and `src` = "0xDEF", plus `value` = 0 and
`amount` = 5. -/
def emptyFromRaw : RawRecord :=
  ⟨none, none, some (.vStr ""), some (.vStr "0xDEF"), none, none, none, none, none, none,
   some (.vInt 0), some (.vInt 5), none, none, none⟩

/-- Three quiet records (small gaps, no heuristic fires). -/
def calmRows : List TransactionRecord := [blankRec 5, blankRec 10, blankRec 20]

/-- A single-record history. -/
def soloRows : List TransactionRecord := [blankRec 100]

/-- A record sent by 0xaaa to 0xbbb with method "permit". -/
def permitRec (t : ℤ) : TransactionRecord := ⟨.vStr "", "0xaaa", "0xbbb", "permit", "", 1, t⟩

/-- Six sensitive-approval records from the target (count 6, capped at 25). -/
def permitRows : List TransactionRecord :=
  [permitRec 0, permitRec 10, permitRec 20, permitRec 30, permitRec 40, permitRec 50]

/-- A plain transfer record from `a` to `b`. -/
def washRec (a b : String) (t : ℤ) : TransactionRecord := ⟨.vStr "", a, b, "", "", 1, t⟩

/-- Two qualifying wash pairs — (0xaaa, 0xbbb) and (0xaaa, 0xccc), each with
3 transfers in both directions. -/
def washRows : List TransactionRecord :=
  [washRec "0xaaa" "0xbbb" 0, washRec "0xaaa" "0xbbb" 1, washRec "0xaaa" "0xbbb" 2,
   washRec "0xbbb" "0xaaa" 3, washRec "0xbbb" "0xaaa" 4, washRec "0xbbb" "0xaaa" 5,
   washRec "0xaaa" "0xccc" 6, washRec "0xaaa" "0xccc" 7, washRec "0xaaa" "0xccc" 8,
   washRec "0xccc" "0xaaa" 9, washRec "0xccc" "0xaaa" 10, washRec "0xccc" "0xaaa" 11]

/-! Claim theorems. -/

/-- C1 (code bug): on `dormantRows` the latest record's time minus every
other record's time is ≥ 2,592,000 s, yet the cold-wallet condition is false
and `score` emits no flag and subtracts nothing — the `recent` list of line
108 always contains the latest record itself (its distance to itself is 0),
so the branch of lines 109-111 is unreachable for non-empty input and the
claimed flag and subtraction never happen. -/
theorem c1_dormancy_flag_never_fires :
    (∀ r ∈ dormantRows.dropLast, 2592000 ≤ lastTime dormantRows - r.time) ∧
    coldFires dormantRows = false ∧
    score dormantRows "0xabc" = .ok (0, []) :=
  ⟨by decide, by decide, by with_unfolding_all rfl⟩

/-- C2 (code bug): a two-record history has exactly one gap, and `score`
raises instead of returning — `statistics.quantiles` (line 85) demands at
least two data points, so the guard `if gaps:` (line 84) is not enough. -/
theorem c2_two_records_raise :
    twoRows.length = 2 ∧ gapsOf twoRows ≠ [] ∧ score twoRows "0xabc" = .error () :=
  ⟨rfl, by decide, by with_unfolding_all rfl⟩

/-- C3 (code bug): a record whose `value` holds a non-numeric string makes
`normalize` raise `ValueError` instead of degrading to the default 0.0 — the
call `float(r.get("value") or r.get("amount") or 0)` on line 51 is not
guarded the way `to_int` is. -/
theorem c3_normalize_raises_on_bad_value :
    normalize [badValueRaw] "0xabc" = .error .valueError ∧
    parseFloatStr "not a number" = none :=
  ⟨by with_unfolding_all rfl, by decide⟩

/-- C5 (confirmed): for the empty record sequence and any target address,
`score` returns exactly `(10.0, ["no history"])` (lines 67-68). -/
theorem c5_empty_history (addr : String) :
    score [] addr = .ok (10, [Flag.noHistory]) := rfl

theorem firstTruthy_one (b : Option PyVal) (d : PyVal) :
    firstTruthy [b] d = pyOr b d := by
  cases b <;> simp [firstTruthy, pyOr]

theorem pyOr_two (a b : Option PyVal) (d : PyVal) :
    pyOr a (pyOr b d) = firstTruthy [a, b] d := by
  cases a <;> cases b <;> simp [firstTruthy, pyOr]

theorem pyOr_three (a b c : Option PyVal) (d : PyVal) :
    pyOr a (pyOr b (pyOr c d)) = firstTruthy [a, b, c] d := by
  cases a <;> cases b <;> cases c <;> simp [firstTruthy, pyOr]

theorem float_or_zero (v : ℚ) : (if pyTruthy (.vFloat v) then v else 0) = v := by
  by_cases hv : v = 0 <;> simp [pyTruthy, hv]

/-- C4 counterexample: with `value` = 0 and `amount` = 5 both present,
`normalize` does NOT keep the first alias's 0 — Python `or` skips the falsy
0 and the record gets value 5.0. -/
theorem c4_first_alias_refuted :
    ¬ ((normalizeRecord zeroValueRaw).map TransactionRecord.value = .ok 0) ∧
    (normalizeRecord zeroValueRaw).map TransactionRecord.value = .ok 5 := by
  with_unfolding_all decide

/-- C4 (corrected): `normalize` selects, per canonical field, the first
alias in fallback priority whose value is *truthy* (a present alias holding
`""` or `0` is skipped in favour of later aliases or the default), and the
canonical field is the source-order coercion of that selected value. -/
theorem c4_alias_first_truthy (r : RawRecord) (rec : TransactionRecord)
    (h : normalizeRecord r = .ok rec) :
    rec.hash = firstTruthy [r.hash, r.txHash] (.vStr "") ∧
    pyLower (firstTruthy [r.«from», r.src] (.vStr "")) = .ok rec.«from» ∧
    pyLower (firstTruthy [r.«to», r.dst] (.vStr "")) = .ok rec.«to» ∧
    pyLower (firstTruthy [r.method, r.functionName] (.vStr "")) = .ok rec.method ∧
    pyUpper (firstTruthy [r.tokenSymbol, r.symbol] (.vStr "")) = .ok rec.token ∧
    pyFloat (firstTruthy [r.value, r.amount] (.vInt 0)) = .ok rec.value ∧
    rec.time = to_int (firstTruthy [r.timeStamp, r.timestamp, r.time] (.vInt 0)) := by
  unfold normalizeRecord at h
  cases h1 : pyLower (pyOr r.«from» (pyOr r.src (PyVal.vStr ""))) with
  | error e => rw [h1] at h; exact absurd h (by simp)
  | ok fr =>
  rw [h1] at h
  cases h2 : pyLower (pyOr r.«to» (pyOr r.dst (PyVal.vStr ""))) with
  | error e => rw [h2] at h; exact absurd h (by simp)
  | ok toA =>
  rw [h2] at h
  cases h3 : pyLower (pyOr r.method (pyOr r.functionName (PyVal.vStr ""))) with
  | error e => rw [h3] at h; exact absurd h (by simp)
  | ok meth =>
  rw [h3] at h
  cases h4 : pyUpper (pyOr r.tokenSymbol (pyOr r.symbol (PyVal.vStr ""))) with
  | error e => rw [h4] at h; exact absurd h (by simp)
  | ok tok =>
  rw [h4] at h
  cases h5 : pyFloat (pyOr r.value (pyOr r.amount (PyVal.vInt 0))) with
  | error e => rw [h5] at h; exact absurd h (by simp)
  | ok v =>
  rw [h5] at h
  simp only [Except.ok.injEq] at h
  subst h
  refine ⟨by rw [← pyOr_two], ?_, ?_, ?_, ?_, ?_, by rw [← pyOr_three]⟩
  · rw [← pyOr_two]; exact h1
  · rw [← pyOr_two]; exact h2
  · rw [← pyOr_two]; exact h3
  · rw [← pyOr_two]; exact h4
  · rw [← pyOr_two]; simp only [float_or_zero]; exact h5

/-- Witness for C4: on a record with `from` = "", `src` = "0xDEF",
`value` = 0 and `amount` = 5, the later truthy aliases are the ones used. -/
theorem c4_alias_first_truthy_witness :
    pyLower (firstTruthy [some (PyVal.vStr ""), some (PyVal.vStr "0xDEF")] (PyVal.vStr "")) =
      .ok "0xdef" ∧
    pyFloat (firstTruthy [some (PyVal.vInt 0), some (PyVal.vInt 5)] (PyVal.vInt 0)) = .ok 5 := by
  have h := c4_alias_first_truthy emptyFromRaw ⟨PyVal.vStr "", "0xdef", "", "", "", 5, 0⟩
    (by with_unfolding_all rfl)
  exact ⟨h.2.1, h.2.2.2.2.2.1⟩

/-! Helper lemmas about the scorer's components, shared by several claims. -/

theorem mixerPts_cases (rows : List TransactionRecord) (addr : String) :
    mixerPts rows addr = 0 ∨ mixerPts rows addr = 35 := by
  unfold mixerPts; split
  exacts [Or.inr rfl, Or.inl rfl]

theorem approvalPts_mul5 (rows : List TransactionRecord) (addr : String) :
    ∃ j : ℕ, j ≤ 5 ∧ approvalPts rows addr = 5 * j := by
  unfold approvalPts
  split
  · rcases le_total ((approvalsCount rows addr : ℚ) * 5) 25 with hle | hle
    · refine ⟨approvalsCount rows addr, ?_, ?_⟩
      · have : ((approvalsCount rows addr : ℚ)) ≤ 5 := by linarith
        exact_mod_cast this
      · rw [min_eq_right hle]; ring
    · exact ⟨5, le_refl 5, by rw [min_eq_left hle]; norm_num⟩
  · exact ⟨0, by norm_num, by norm_num⟩

theorem burstRes_cases {rows : List TransactionRecord} {bp : ℚ} {bf : List Flag}
    (h : burstRes rows = .ok (bp, bf)) :
    (bp = 0 ∧ bf = []) ∨ ∃ n : ℕ, 3 ≤ n ∧ bp = 10 ∧ bf = [Flag.bursts n] := by
  unfold burstRes at h
  split at h
  · simp only [Except.ok.injEq, Prod.mk.injEq] at h
    exact Or.inl ⟨h.1.symm, h.2.symm⟩
  · split at h
    · exact absurd h (by simp)
    · rename_i q1 hq
      split at h
      · rename_i hcnt
        simp only [Except.ok.injEq, Prod.mk.injEq] at h
        exact Or.inr ⟨burstCount (gapsOf rows) q1, hcnt, h.1.symm, h.2.symm⟩
      · simp only [Except.ok.injEq, Prod.mk.injEq] at h
        exact Or.inl ⟨h.1.symm, h.2.symm⟩

theorem tokenPts_cases (rows : List TransactionRecord) (addr : String) :
    tokenPts rows addr = 0 ∨ tokenPts rows addr = 10 := by
  unfold tokenPts; split
  exacts [Or.inr rfl, Or.inl rfl]

theorem washPts_cases (rows : List TransactionRecord) (addr : String) :
    washPts rows addr = 0 ∨ washPts rows addr = 15 := by
  unfold washPts; split
  exacts [Or.inr rfl, Or.inl rfl]

/-- The cold-wallet branch (lines 109-111) is dead for non-empty input: the
latest record is always within the trailing window of itself, so `recent` is
never empty. -/
theorem coldFires_false {rows : List TransactionRecord} (h : rows ≠ []) :
    coldFires rows = false := by
  have hmem : rows.getLast h ∈ recentRecords rows := by
    refine List.mem_filter.mpr ⟨List.getLast_mem h, ?_⟩
    have hl : lastTime rows = (rows.getLast h).time := by
      unfold lastTime
      rw [List.getLast?_eq_getLast rows h]
    rw [hl]
    norm_num
  have hne : recentRecords rows ≠ [] := List.ne_nil_of_mem hmem
  unfold coldFires
  cases hr : recentRecords rows with
  | nil => exact absurd hr hne
  | cons a l => rfl

/-- Every point total the heuristics can produce is a multiple of 5, at most
5 · 19 = 95. -/
theorem scorePoints_mul5 {rows : List TransactionRecord} {addr : String} {p : ℚ} {f : List Flag}
    (h : scorePoints rows addr = .ok (p, f)) :
    ∃ k : ℕ, k ≤ 19 ∧ p = 5 * k := by
  unfold scorePoints at h
  cases hb : burstRes rows with
  | error e => rw [hb] at h; exact absurd h (by simp)
  | ok bres =>
    rw [hb] at h
    simp only [Except.ok.injEq, Prod.mk.injEq] at h
    obtain ⟨hp, hf⟩ := h
    have hm : ∃ a : ℕ, a ≤ 7 ∧ mixerPts rows addr = 5 * a := by
      rcases mixerPts_cases rows addr with h' | h'
      exacts [⟨0, by norm_num, by rw [h']; norm_num⟩, ⟨7, by norm_num, by rw [h']; norm_num⟩]
    have hbp : ∃ b : ℕ, b ≤ 2 ∧ bres.1 = 5 * b := by
      rcases burstRes_cases (show burstRes rows = .ok (bres.1, bres.2) by rw [hb]) with
        ⟨h0, _⟩ | ⟨n, _, h10, _⟩
      exacts [⟨0, by norm_num, by rw [h0]; norm_num⟩, ⟨2, by norm_num, by rw [h10]; norm_num⟩]
    have ht : ∃ t : ℕ, t ≤ 2 ∧ tokenPts rows addr = 5 * t := by
      rcases tokenPts_cases rows addr with h' | h'
      exacts [⟨0, by norm_num, by rw [h']; norm_num⟩, ⟨2, by norm_num, by rw [h']; norm_num⟩]
    have hw : ∃ w : ℕ, w ≤ 3 ∧ washPts rows addr = 5 * w := by
      rcases washPts_cases rows addr with h' | h'
      exacts [⟨0, by norm_num, by rw [h']; norm_num⟩, ⟨3, by norm_num, by rw [h']; norm_num⟩]
    obtain ⟨a, ha7, hma⟩ := hm
    obtain ⟨j, hj5, haj⟩ := approvalPts_mul5 rows addr
    obtain ⟨b, hb2, hbb⟩ := hbp
    obtain ⟨t, ht2, htt⟩ := ht
    obtain ⟨w, hw3, hww⟩ := hw
    have hbase : mixerPts rows addr + approvalPts rows addr + bres.1
        + tokenPts rows addr + washPts rows addr = 5 * ((a + j + b + t + w : ℕ) : ℚ) := by
      rw [hma, haj, hbb, htt, hww]; push_cast; ring
    rw [hbase] at hp
    by_cases hc : coldFires rows
    · rw [if_pos hc] at hp
      by_cases h2 : 2 ≤ a + j + b + t + w
      · refine ⟨a + j + b + t + w - 2, by omega, ?_⟩
        have he : (5:ℚ) * ((a + j + b + t + w : ℕ) : ℚ) - 10
            = 5 * ((a + j + b + t + w - 2 : ℕ) : ℚ) := by
          push_cast [Nat.cast_sub h2]; ring
        rw [← hp, he, max_eq_right (by positivity)]
      · have h01 : a + j + b + t + w = 0 ∨ a + j + b + t + w = 1 := by omega
        refine ⟨0, by omega, ?_⟩
        rw [← hp]
        rcases h01 with h' | h' <;>
          rw [h'] <;> rw [max_eq_left (by norm_num)] <;> norm_num
    · rw [if_neg hc] at hp
      exact ⟨a + j + b + t + w, by omega, hp.symm⟩

theorem ratFloor_intCast (n : ℤ) : Rat.floor ((n : ℚ)) = n := by
  rw [Rat.floor_def']; simp

theorem roundHalfEven_intCast (n : ℤ) : roundHalfEven ((n : ℚ)) = n := by
  unfold roundHalfEven
  rw [ratFloor_intCast n, sub_self]
  norm_num

theorem round2_intCast (n : ℤ) : round2 ((n : ℚ)) = n := by
  unfold round2
  have he : ((n : ℚ)) * 100 = ((n * 100 : ℤ) : ℚ) := by push_cast; ring
  rw [he, roundHalfEven_intCast]
  push_cast
  field_simp

/-- Destructuring a successful `score` call on a non-empty history into its
`scorePoints` stage and the final clamp-and-round (line 114). -/
theorem score_ok_destruct {rows : List TransactionRecord} {addr : String} {s : ℚ} {f : List Flag}
    (h : score rows addr = .ok (s, f)) (hne : rows ≠ []) :
    ∃ p, scorePoints rows (strLower addr) = .ok (p, f) ∧ s = round2 (max 0 (min 100 p)) := by
  have hie : rows.isEmpty = false := by simp [List.isEmpty_iff, hne]
  unfold score at h
  rw [hie] at h
  simp only [Bool.false_eq_true, if_false] at h
  cases hs : scorePoints rows (strLower addr) with
  | error e => rw [hs] at h; exact absurd h (by simp)
  | ok pf =>
    obtain ⟨p2, f2⟩ := pf
    rw [hs] at h
    simp only [Except.ok.injEq, Prod.mk.injEq] at h
    exact ⟨p2, by rw [h.2], h.1.symm⟩

/-- Combined form: on a non-empty history a successful `score` equals its
(unclamped, unrounded) point total, which is 5k for some k ≤ 19. -/
theorem score_ok_value {rows : List TransactionRecord} {addr : String} {s : ℚ} {f : List Flag}
    (h : score rows addr = .ok (s, f)) (hne : rows ≠ []) :
    ∃ (p : ℚ) (k : ℕ), scorePoints rows (strLower addr) = .ok (p, f)
      ∧ k ≤ 19 ∧ p = 5 * (k : ℚ) ∧ s = p := by
  obtain ⟨p, hsp, hs⟩ := score_ok_destruct h hne
  obtain ⟨k, hk19, hpk⟩ := scorePoints_mul5 hsp
  have hk : ((k : ℚ)) ≤ 19 := by exact_mod_cast hk19
  have hple : p ≤ 95 := by rw [hpk]; linarith
  have hp0 : 0 ≤ p := by rw [hpk]; positivity
  have hmm : max 0 (min 100 p) = p := by
    rw [min_eq_right (by linarith), max_eq_right hp0]
  have hint : p = (((5 * k : ℕ) : ℤ) : ℚ) := by rw [hpk]; push_cast; ring
  refine ⟨p, k, hsp, hk19, hpk, ?_⟩
  rw [hs, hmm, hint, round2_intCast]

/-- C6 (confirmed): whenever `score` returns, the score is in [0, 100] and is
a fixed point of 2-decimal rounding; on a non-empty history it is exactly
`round(max(0.0, min(100.0, points)), 2)` of the accumulated points (line 114;
the empty history short-circuits to 10.0 at lines 67-68, which also satisfies
the range and rounding property). -/
theorem c6_score_range (rows : List TransactionRecord) (addr : String) (s : ℚ) (f : List Flag)
    (h : score rows addr = .ok (s, f)) :
    (0 ≤ s ∧ s ≤ 100 ∧ round2 s = s) ∧
    (rows ≠ [] → ∃ p, scorePoints rows (strLower addr) = .ok (p, f) ∧
      s = round2 (max 0 (min 100 p))) := by
  by_cases hne : rows = []
  · subst hne
    have h0 : score [] addr = .ok (10, [Flag.noHistory]) := rfl
    rw [h0] at h
    simp only [Except.ok.injEq, Prod.mk.injEq] at h
    obtain ⟨hs, hf⟩ := h
    subst hs
    refine ⟨⟨by norm_num, by norm_num, ?_⟩, fun hc => absurd rfl hc⟩
    simpa using round2_intCast 10
  · obtain ⟨p, k, hsp, hk19, hpk, hsep⟩ := score_ok_value h hne
    obtain ⟨p', hsp', hs'⟩ := score_ok_destruct h hne
    have hk : ((k : ℚ)) ≤ 19 := by exact_mod_cast hk19
    have hint : s = (((5 * k : ℕ) : ℤ) : ℚ) := by rw [hsep, hpk]; push_cast; ring
    refine ⟨⟨?_, ?_, ?_⟩, fun _ => ⟨p', hsp', hs'⟩⟩
    · rw [hsep, hpk]; positivity
    · rw [hsep, hpk]; linarith
    · rw [hint, round2_intCast]

/-- Witness for C6 at a concrete input (three quiet records, score 0). -/
theorem c6_score_range_witness :
    ((0:ℚ) ≤ 0 ∧ (0:ℚ) ≤ 100 ∧ round2 0 = 0) ∧
    (calmRows ≠ [] → ∃ p, scorePoints calmRows (strLower "0xAbC") = .ok (p, ([] : List Flag)) ∧
      (0:ℚ) = round2 (max 0 (min 100 p))) :=
  c6_score_range calmRows "0xAbC" 0 [] (by with_unfolding_all rfl)

/-- C10 (confirmed, implicit): every score the program returns is an integral
multiple of 5 in [0, 95] — each heuristic contribution is a multiple of 5 and
their maximum total is 95, the cold adjustment is floored at 0, the empty
history yields 10.0, and rounding is the identity on these values. -/
theorem c10_score_multiple_of_five (rows : List TransactionRecord) (addr : String) (s : ℚ)
    (f : List Flag) (h : score rows addr = .ok (s, f)) :
    ∃ k : ℕ, s = 5 * (k : ℚ) ∧ 0 ≤ s ∧ s ≤ 95 := by
  by_cases hne : rows = []
  · subst hne
    have h0 : score [] addr = .ok (10, [Flag.noHistory]) := rfl
    rw [h0] at h
    simp only [Except.ok.injEq, Prod.mk.injEq] at h
    obtain ⟨hs, -⟩ := h
    exact ⟨2, by rw [← hs]; norm_num, by rw [← hs]; norm_num, by rw [← hs]; norm_num⟩
  · obtain ⟨p, k, hsp, hk19, hpk, hsep⟩ := score_ok_value h hne
    have hk : ((k : ℚ)) ≤ 19 := by exact_mod_cast hk19
    exact ⟨k, by rw [hsep, hpk], by rw [hsep, hpk]; positivity, by rw [hsep, hpk]; linarith⟩

/-- Witness for C10 at a concrete input (one record, score 0 = 5·0). -/
theorem c10_score_multiple_of_five_witness :
    ∃ k : ℕ, (0:ℚ) = 5 * (k : ℚ) ∧ (0:ℚ) ≤ 0 ∧ (0:ℚ) ≤ 95 :=
  c10_score_multiple_of_five soloRows "0xabc" 0 [] (by with_unfolding_all rfl)

/-- C7 (confirmed): whenever `score` returns and the sensitive-approval count
is positive, the flag carries the count and the point total decomposes as the
other four heuristics plus exactly `min(25, count·5)` (lines 77-80) — the
cold-wallet adjustment never interferes (its branch is dead on non-empty
input). -/
theorem c7_approval_cap (rows : List TransactionRecord) (addr : String) (s : ℚ) (f : List Flag)
    (h : score rows addr = .ok (s, f))
    (hc : 0 < approvalsCount rows (strLower addr)) :
    Flag.approvals (approvalsCount rows (strLower addr)) ∈ f ∧
    approvalPts rows (strLower addr) = min 25 ((approvalsCount rows (strLower addr) : ℚ) * 5) ∧
    ∃ bp bf, burstRes rows = .ok (bp, bf) ∧
      scorePoints rows (strLower addr) =
        .ok (mixerPts rows (strLower addr)
          + min 25 ((approvalsCount rows (strLower addr) : ℚ) * 5) + bp
          + tokenPts rows (strLower addr) + washPts rows (strLower addr), f) := by
  have hne : rows ≠ [] := by
    intro h0
    rw [h0] at hc
    simp [approvalsCount] at hc
  obtain ⟨p, hsp, -⟩ := score_ok_destruct h hne
  have happr : approvalPts rows (strLower addr) =
      min 25 ((approvalsCount rows (strLower addr) : ℚ) * 5) := by
    unfold approvalPts
    rw [if_pos hc]
  have hsp' := hsp
  unfold scorePoints at hsp'
  cases hb : burstRes rows with
  | error e => rw [hb] at hsp'; exact absurd hsp' (by simp)
  | ok bres =>
    rw [hb] at hsp'
    simp only [Except.ok.injEq, Prod.mk.injEq] at hsp'
    obtain ⟨hpq, hfq⟩ := hsp'
    rw [coldFires_false hne] at hpq
    simp only [Bool.false_eq_true, if_false] at hpq
    refine ⟨?_, happr, bres.1, bres.2, rfl, ?_⟩
    · rw [← hfq]
      have hmem : Flag.approvals (approvalsCount rows (strLower addr))
          ∈ approvalFlags rows (strLower addr) := by
        unfold approvalFlags
        rw [if_pos hc]
        exact List.mem_singleton_self _
      simp only [List.mem_append]
      exact Or.inl (Or.inl (Or.inl (Or.inl (Or.inr hmem))))
    · rw [hsp, ← happr, hpq]

/-- Witness for C7: six records from the target whose method contains
"permit" contribute exactly `min(25, 30) = 25` points, not 30. -/
theorem c7_approval_cap_witness :
    0 < approvalsCount permitRows (strLower "0xAAA") ∧
    (Flag.approvals (approvalsCount permitRows (strLower "0xAAA")) ∈
        [Flag.approvals 6, Flag.bursts 5] ∧
      approvalPts permitRows (strLower "0xAAA") =
        min 25 ((approvalsCount permitRows (strLower "0xAAA") : ℚ) * 5) ∧
      ∃ bp bf, burstRes permitRows = .ok (bp, bf) ∧
        scorePoints permitRows (strLower "0xAAA") =
          .ok (mixerPts permitRows (strLower "0xAAA")
            + min 25 ((approvalsCount permitRows (strLower "0xAAA") : ℚ) * 5) + bp
            + tokenPts permitRows (strLower "0xAAA") + washPts permitRows (strLower "0xAAA"),
            [Flag.approvals 6, Flag.bursts 5])) :=
  ⟨by with_unfolding_all decide,
   c7_approval_cap permitRows "0xAAA" 35 [Flag.approvals 6, Flag.bursts 5]
     (by with_unfolding_all rfl) (by with_unfolding_all decide)⟩

theorem mem_firstOcc {l : List (String × String)} {x : String × String} :
    x ∈ firstOcc l ↔ x ∈ l := by
  induction l with
  | nil => simp [firstOcc]
  | cons a rest ih =>
    by_cases hx : x = a
    · subst hx; simp [firstOcc]
    · simp [firstOcc, List.mem_filter, hx, ih]

/-- A qualifying pair guarantees `washFound` finds some (possibly different)
pair. -/
theorem washFound_isSome {rows : List TransactionRecord} {addr a b : String}
    (hab : a = addr ∨ b = addr) (hf : 3 ≤ pairCount rows a b) (hr : 3 ≤ pairCount rows b a) :
    ∃ q, washFound rows addr = some q := by
  have hpos : 0 < (rows.filter (fun r => decide (r.«from» = a ∧ r.«to» = b))).length := by
    unfold pairCount at hf; omega
  obtain ⟨r0, hr0⟩ := List.exists_mem_of_ne_nil _ (List.length_pos.mp hpos)
  have hr0' := List.mem_filter.mp hr0
  have hfr : r0.«from» = a ∧ r0.«to» = b := by simpa using hr0'.2
  have hmemmap : (a, b) ∈ rows.map (fun r => (r.«from», r.«to»)) := by
    refine List.mem_map.mpr ⟨r0, hr0'.1, ?_⟩
    rw [hfr.1, hfr.2]
  have hkeys : (a, b) ∈ pairKeys rows := by
    unfold pairKeys
    exact mem_firstOcc.mpr hmemmap
  have hsome : ((pairKeys rows).find? (fun p =>
      decide ((p.1 = addr ∨ p.2 = addr) ∧ 3 ≤ pairCount rows p.1 p.2
        ∧ 3 ≤ pairCount rows p.2 p.1))).isSome := by
    rw [List.find?_isSome]
    exact ⟨(a, b), hkeys, by simp [hab, hf, hr]⟩
  obtain ⟨q, hq⟩ := Option.isSome_iff_exists.mp hsome
  exact ⟨q, hq⟩

/-- C8 (confirmed): whenever `score` returns and some directed pair touching
the target has forward and reverse counts both ≥ 3, the result carries
exactly one wash flag, the wash heuristic contributes exactly 15 points, and
the flagged pair is itself a qualifying pair (the `break` on line 105 makes
this first-match-only even when several pairs qualify). -/
theorem c8_wash_single_fire (rows : List TransactionRecord) (addr : String) (s : ℚ)
    (f : List Flag) (h : score rows addr = .ok (s, f))
    (hq : ∃ a b, (a = strLower addr ∨ b = strLower addr)
      ∧ 3 ≤ pairCount rows a b ∧ 3 ≤ pairCount rows b a) :
    f.countP isWashFlag = 1 ∧ washPts rows (strLower addr) = 15 ∧
    ∃ a b, washFound rows (strLower addr) = some (a, b) ∧ Flag.wash a b ∈ f ∧
      (a = strLower addr ∨ b = strLower addr)
      ∧ 3 ≤ pairCount rows a b ∧ 3 ≤ pairCount rows b a := by
  obtain ⟨a, b, hab, hfc, hrc⟩ := hq
  have hne : rows ≠ [] := by
    intro h0
    rw [h0] at hfc
    simp [pairCount] at hfc
  obtain ⟨q0, hq0⟩ := washFound_isSome hab hfc hrc
  have hwash : washPts rows (strLower addr) = 15 := by
    unfold washPts
    rw [hq0]
  have hwf : washFlags rows (strLower addr) = [Flag.wash q0.1 q0.2] := by
    unfold washFlags
    rw [hq0]
  have hpred : (q0.1 = strLower addr ∨ q0.2 = strLower addr)
      ∧ 3 ≤ pairCount rows q0.1 q0.2 ∧ 3 ≤ pairCount rows q0.2 q0.1 := by
    have := List.find?_some (by unfold washFound at hq0; exact hq0)
    simpa using this
  obtain ⟨p, hsp, -⟩ := score_ok_destruct h hne
  have hsp' := hsp
  unfold scorePoints at hsp'
  cases hb : burstRes rows with
  | error e => rw [hb] at hsp'; exact absurd hsp' (by simp)
  | ok bres =>
    rw [hb] at hsp'
    simp only [Except.ok.injEq, Prod.mk.injEq] at hsp'
    obtain ⟨hpq, hfq⟩ := hsp'
    have hcm : (mixerFlags rows (strLower addr)).countP isWashFlag = 0 := by
      unfold mixerFlags; split <;> simp [isWashFlag]
    have hca : (approvalFlags rows (strLower addr)).countP isWashFlag = 0 := by
      unfold approvalFlags; split <;> simp [isWashFlag]
    have hcb : (bres.2).countP isWashFlag = 0 := by
      rcases burstRes_cases (show burstRes rows = .ok (bres.1, bres.2) by rw [hb]) with
        ⟨-, h2⟩ | ⟨n, -, -, h2⟩ <;> rw [h2] <;> simp [isWashFlag]
    have hct : (tokenFlags rows (strLower addr)).countP isWashFlag = 0 := by
      unfold tokenFlags; split <;> simp [isWashFlag]
    have hcw : (washFlags rows (strLower addr)).countP isWashFlag = 1 := by
      rw [hwf]; simp [isWashFlag]
    have hcc : (coldFlags rows).countP isWashFlag = 0 := by
      unfold coldFlags
      rw [coldFires_false hne]
      simp
    refine ⟨?_, hwash, q0.1, q0.2, by rw [hq0], ?_, hpred.1, hpred.2.1, hpred.2.2⟩
    · rw [← hfq]
      simp only [List.countP_append, hcm, hca, hcb, hct, hcw, hcc]
    · rw [← hfq]
      simp only [List.mem_append]
      refine Or.inl (Or.inr ?_)
      rw [hwf]
      exact List.mem_singleton_self _

/-- Witness for C8: two distinct qualifying pairs — (0xaaa, 0xbbb) and
(0xaaa, 0xccc) — still produce exactly one wash flag and exactly 15 points. -/
theorem c8_wash_single_fire_witness :
    (∃ a b, (a = strLower "0xaaa" ∨ b = strLower "0xaaa")
      ∧ 3 ≤ pairCount washRows a b ∧ 3 ≤ pairCount washRows b a) ∧
    ([Flag.bursts 11, Flag.wash "0xaaa" "0xbbb"].countP isWashFlag = 1 ∧
     washPts washRows (strLower "0xaaa") = 15 ∧
     ∃ a b, washFound washRows (strLower "0xaaa") = some (a, b) ∧
       Flag.wash a b ∈ [Flag.bursts 11, Flag.wash "0xaaa" "0xbbb"] ∧
       (a = strLower "0xaaa" ∨ b = strLower "0xaaa")
       ∧ 3 ≤ pairCount washRows a b ∧ 3 ≤ pairCount washRows b a) :=
  ⟨⟨"0xaaa", "0xbbb", by with_unfolding_all decide⟩,
   c8_wash_single_fire washRows "0xaaa" 25 [Flag.bursts 11, Flag.wash "0xaaa" "0xbbb"]
     (by with_unfolding_all rfl) ⟨"0xaaa", "0xbbb", by with_unfolding_all decide⟩⟩

theorem analyze_foldl (code : String) (rules : List RiskRule) (acc : ℕ × List String) :
    rules.foldl (analyzeStep code) acc =
      (acc.1 + ((rules.filter (fun r => reSearch r.regex code.data)).map RiskRule.weight).sum,
       acc.2 ++ (rules.filter (fun r => reSearch r.regex code.data)).map RiskRule.desc) := by
  induction rules generalizing acc with
  | nil => simp
  | cons r rest ih =>
    simp only [List.foldl_cons, List.filter_cons]
    by_cases hr : reSearch r.regex code.data
    · rw [if_pos hr, ih]
      simp only [analyzeStep, if_pos hr, List.map_cons, List.sum_cons]
      rw [add_assoc]
      simp [List.append_assoc]
    · rw [if_neg hr]
      simp only [analyzeStep, if_neg hr]
      exact ih acc

/-- C9 (confirmed): `analyze` returns the sum of the weights of all rules
whose pattern matches case-insensitively, with the matching descriptions in
rule-declaration order (no first-match dispatch); in particular an input with
"selfdestruct" and "DELEGATECALL" scores 40 + 25 = 65 with both descriptions
in declaration order, and an input matching nothing scores 0 with no
reasons. -/
theorem c9_analyze_additive :
    (∀ code : String,
      analyze code =
        (((RULES.filter (fun r => reSearch r.regex code.data)).map RiskRule.weight).sum,
         (RULES.filter (fun r => reSearch r.regex code.data)).map RiskRule.desc)) ∧
    analyze "selfdestruct(msg.sender); DELEGATECALL(t)" =
      (65, ["Contract selfdestruct", "Delegatecall detected"]) ∧
    analyze "hello world" = (0, []) := by
  refine ⟨fun code => ?_, by decide, by decide⟩
  have h := analyze_foldl code RULES (0, [])
  simpa [analyze] using h

end RiskScan
